import Mathlib

/-!
Verification development for the cancellable streaming analysis coordinator
of the ANR/Tombstone AI analyzer.

The embedded code is translated from the Python sources:
  * `CancellationToken` / `CancellationManager` (deployment doc, class design),
  * the SSE generator `generate` of the `/api/ai/analyze-with-cancellation`
    endpoint,
  * the cancel endpoint `cancel_analysis`,
  * `StreamingAnalyzer.stream_with_cancellation` (character-interval
    cancellation checks),
  * `split_log` (the manual chunker of the troubleshooting doc).

Wall-clock times (`time.time()`) are modelled as natural numbers supplied by
the caller; Python dictionaries become association lists with
replace-on-assignment semantics; async mutation becomes explicit state
passing.  The callback list of `CancellationToken` is irrelevant to all
properties below and is omitted from the state.
-/

/-- One cancellation token, translated from `CancellationToken.__init__`:
`is_cancelled = False`, `created_at = time.time()`, `cancelled_at = None`. -/
structure CancellationToken where
  analysis_id : String
  is_cancelled : Bool
  created_at : Nat
  cancelled_at : Option Nat
deriving DecidableEq

/-- Constructor `CancellationToken(analysis_id)` at wall-clock time `now`. -/
def CancellationToken.new (id : String) (now : Nat) : CancellationToken :=
  { analysis_id := id, is_cancelled := false, created_at := now, cancelled_at := none }

/-- Translation of `CancellationToken.cancel`: only when the flag is not yet
set does it set the flag and record `cancelled_at = time.time()`. -/
def CancellationToken.cancel (t : CancellationToken) (now : Nat) : CancellationToken :=
  if t.is_cancelled then t
  else { t with is_cancelled := true, cancelled_at := some now }

/-- The registry state of `CancellationManager`: the `_tokens` dictionary,
as an association list read through `List.lookup`. -/
structure CancellationManager where
  tokens : List (String × CancellationToken)
deriving DecidableEq

/-- Python dictionary assignment `d[k] = v`: the key now maps to `v`,
every other key is unchanged. -/
def dictSet (l : List (String × CancellationToken)) (k : String) (v : CancellationToken) :
    List (String × CancellationToken) :=
  (k, v) :: l.filter (fun p => !(p.1 == k))

/-- Dictionary read `self._tokens.get(analysis_id)`. -/
def CancellationManager.getToken (m : CancellationManager) (id : String) :
    Option CancellationToken :=
  m.tokens.lookup id

/-- Translation of `CancellationManager.create_token`: builds a fresh token
and assigns it into the dictionary, unconditionally — the code performs no
duplicate-id check before `self._tokens[analysis_id] = token`. -/
def CancellationManager.create_token (m : CancellationManager) (id : String) (now : Nat) :
    CancellationToken × CancellationManager :=
  let t := CancellationToken.new id now
  (t, ⟨dictSet m.tokens id t⟩)

/-- Translation of `CancellationManager.cancel_analysis`: look the token up;
if it exists and is not yet cancelled, cancel it and return `True`,
otherwise return `False`. -/
def CancellationManager.cancel_analysis (m : CancellationManager) (id : String) (now : Nat) :
    Bool × CancellationManager :=
  match m.getToken id with
  | some t =>
      if t.is_cancelled then (false, m)
      else (true, ⟨dictSet m.tokens id (t.cancel now)⟩)
  | none => (false, m)

theorem lookup_dictSet_self (l : List (String × CancellationToken)) (k : String)
    (v : CancellationToken) : (dictSet l k v).lookup k = some v := by
  simp [dictSet, List.lookup]

/-- Claim C2: the cancelled flag of a token is monotonic — cancelling an
already-cancelled token is the identity — and through the manager a second
`cancel_analysis` on the same id returns `false`, leaves the registry
untouched, and the cancellation timestamp recorded by the first call is
still the one the first call wrote. -/
theorem C2_cancel_monotonic_double_cancel :
    (∀ (t : CancellationToken) (now : Nat),
        t.is_cancelled = true → t.cancel now = t) ∧
    (∀ (m : CancellationManager) (id : String) (n₁ n₂ : Nat),
        (m.cancel_analysis id n₁).1 = true →
          ((m.cancel_analysis id n₁).2.cancel_analysis id n₂ =
              (false, (m.cancel_analysis id n₁).2)) ∧
          ∃ tok : CancellationToken,
            (m.cancel_analysis id n₁).2.getToken id = some tok ∧
            tok.is_cancelled = true ∧ tok.cancelled_at = some n₁) := by
  constructor
  · intro t now h
    simp [CancellationToken.cancel, h]
  · intro m id n₁ n₂ h₁
    cases hget : m.getToken id with
    | none => simp [CancellationManager.cancel_analysis, hget] at h₁
    | some t =>
      by_cases hc : t.is_cancelled
      · simp [CancellationManager.cancel_analysis, hget, hc] at h₁
      · have hstep : m.cancel_analysis id n₁ =
            (true, ⟨dictSet m.tokens id (t.cancel n₁)⟩) := by
          simp [CancellationManager.cancel_analysis, hget, hc]
        rw [hstep]
        have hcanc : t.cancel n₁ =
            { t with is_cancelled := true, cancelled_at := some n₁ } := by
          simp [CancellationToken.cancel, hc]
        have hlook : CancellationManager.getToken ⟨dictSet m.tokens id (t.cancel n₁)⟩ id =
            some (t.cancel n₁) := lookup_dictSet_self _ _ _
        refine ⟨?_, t.cancel n₁, hlook, by rw [hcanc], by rw [hcanc]⟩
        simp only [CancellationManager.cancel_analysis, hlook]
        rw [hcanc]
        simp

/-- Witness for C2 at a concrete registry holding one active token. -/
theorem C2_cancel_monotonic_double_cancel_witness :
    ((CancellationManager.mk [("a", CancellationToken.new "a" 0)]).cancel_analysis "a" 5).2.cancel_analysis "a" 7 =
      (false, ((CancellationManager.mk [("a", CancellationToken.new "a" 0)]).cancel_analysis "a" 5).2) ∧
    ∃ tok : CancellationToken,
      ((CancellationManager.mk [("a", CancellationToken.new "a" 0)]).cancel_analysis "a" 5).2.getToken "a" = some tok ∧
      tok.is_cancelled = true ∧ tok.cancelled_at = some 5 :=
  C2_cancel_monotonic_double_cancel.2
    (CancellationManager.mk [("a", CancellationToken.new "a" 0)]) "a" 5 7 (by decide)

/-- Claim C3: cancelling an analysis id with no registered token returns
`false` and changes nothing; the code has no raising path for this case. -/
theorem C3_cancel_missing_id_returns_false (m : CancellationManager) (id : String) (now : Nat)
    (h : m.getToken id = none) : m.cancel_analysis id now = (false, m) := by
  simp [CancellationManager.cancel_analysis, h]

/-- Witness for C3 on the empty registry. -/
theorem C3_cancel_missing_id_returns_false_witness :
    (CancellationManager.mk []).cancel_analysis "missing" 3 = (false, CancellationManager.mk []) :=
  C3_cancel_missing_id_returns_false (CancellationManager.mk []) "missing" 3 (by decide)

/-- Counterexample to claim C5 as stated: with an active (not cancelled)
token already registered for `"a"`, `create_token "a"` does not fail — it
returns a fresh token and the registry now maps `"a"` to that fresh token
(`created_at = 5`), the previously registered token (`created_at = 0`)
having been overwritten. -/
theorem C5_create_token_overwrites_counterexample :
    ((CancellationManager.mk [("a", CancellationToken.new "a" 0)]).create_token "a" 5).1 =
        CancellationToken.new "a" 5 ∧
    ((CancellationManager.mk [("a", CancellationToken.new "a" 0)]).create_token "a" 5).2.getToken "a" =
        some (CancellationToken.new "a" 5) ∧
    CancellationToken.new "a" 5 ≠ CancellationToken.new "a" 0 := by
  refine ⟨rfl, ?_, by decide⟩
  exact lookup_dictSet_self _ _ _

/-- Claim C5 amended: `create_token` never fails; it always inserts and
returns a fresh token with `cancelled = false` for the requested id,
silently replacing any token already registered under that id. -/
theorem C5_create_token_always_inserts (m : CancellationManager) (id : String) (now : Nat) :
    (m.create_token id now).1.is_cancelled = false ∧
    (m.create_token id now).1.analysis_id = id ∧
    (m.create_token id now).1.created_at = now ∧
    (m.create_token id now).1.cancelled_at = none ∧
    (m.create_token id now).2.getToken id = some (m.create_token id now).1 := by
  refine ⟨rfl, rfl, rfl, rfl, ?_⟩
  exact lookup_dictSet_self _ _ _

/-- List-level core of `split_log`: the Python comprehension
`[content[i:i+chunk_size] for i in range(0, len(content), chunk_size)]`.
`range(0, n, s)` enumerates `ceil(n/s) = (n + s - 1) / s` indices, and the
slice `content[i:i+s]` clamps at the end of the list. -/
def sliceChunks (l : List Char) (s : Nat) : List (List Char) :=
  (List.range' 0 ((l.length + s - 1) / s) s).map (fun i => (l.drop i).take s)

/-- Translation of `split_log(content, chunk_size)` from the
troubleshooting document. -/
def split_log (content : String) (chunk_size : Nat) : List String :=
  (List.range' 0 ((content.length + chunk_size - 1) / chunk_size) chunk_size).map
    (fun i => String.mk ((content.data.drop i).take chunk_size))

/-- The 500,000-character content of the LARGE_FILE chunking scenario. -/
def big_content : String := String.mk (List.replicate 500000 'a')

theorem split_log_eq_sliceChunks (c : String) (s : Nat) :
    split_log c s = (sliceChunks c.data s).map String.mk := by
  unfold split_log sliceChunks
  rw [List.map_map]
  rfl

theorem range'_add_map (s b : Nat) :
    ∀ (k a : Nat), List.range' (a + b) k s = (List.range' a k s).map (fun i => i + b) := by
  intro k
  induction k with
  | zero => intro a; rfl
  | succ k ih =>
    intro a
    rw [List.range'_succ, List.range'_succ, List.map_cons, ← ih (a + s)]
    have h : a + s + b = a + b + s := by omega
    rw [h]

theorem sliceChunks_nil (s : Nat) : sliceChunks [] s = [] := by
  rcases Nat.eq_zero_or_pos s with hs | hs
  · subst hs; rfl
  · unfold sliceChunks
    have h : (List.length ([] : List Char) + s - 1) / s = 0 := by
      simp only [List.length_nil]
      exact Nat.div_eq_of_lt (by omega)
    rw [h]
    rfl

theorem sliceChunks_cons (l : List Char) (s : Nat) (hs : 0 < s) (hl : l ≠ []) :
    sliceChunks l s = l.take s :: sliceChunks (l.drop s) s := by
  have hn : 0 < l.length := List.length_pos.mpr hl
  have hcount : (l.length + s - 1) / s = ((l.length - s) + s - 1) / s + 1 := by
    rcases le_or_lt s l.length with h | h
    · have h1 : l.length + s - 1 = (l.length - s + s - 1) + s := by omega
      rw [h1, Nat.add_div_right _ hs]
    · have h0 : l.length - s = 0 := by omega
      have h1 : l.length + s - 1 = (l.length - 1) + s := by omega
      rw [h0, h1, Nat.add_div_right _ hs, Nat.div_eq_of_lt (by omega)]
      have h2 : (0 + s - 1) / s = 0 := Nat.div_eq_of_lt (by omega)
      rw [h2]
  unfold sliceChunks
  rw [List.length_drop, hcount, List.range'_succ, List.map_cons, List.drop_zero]
  congr 1
  rw [range'_add_map s s _ 0, List.map_map]
  apply List.map_congr_left
  intro i _
  show (l.drop (i + s)).take s = ((l.drop s).drop i).take s
  rw [List.drop_drop, Nat.add_comm]

theorem sliceChunks_flatten_aux (s : Nat) (hs : 0 < s) :
    ∀ (fuel : Nat) (l : List Char), l.length ≤ fuel → (sliceChunks l s).flatten = l := by
  intro fuel
  induction fuel with
  | zero =>
    intro l hl
    have h : l = [] := List.length_eq_zero.mp (by omega)
    rw [h, sliceChunks_nil]
    rfl
  | succ fuel ih =>
    intro l hl
    by_cases hnil : l = []
    · rw [hnil, sliceChunks_nil]; rfl
    · rw [sliceChunks_cons l s hs hnil, List.flatten_cons,
        ih (l.drop s) (by rw [List.length_drop]; have := List.length_pos.mpr hnil; omega)]
      exact List.take_append_drop s l

theorem sliceChunks_flatten (l : List Char) (s : Nat) (hs : 0 < s) :
    (sliceChunks l s).flatten = l :=
  sliceChunks_flatten_aux s hs l.length l le_rfl

theorem sliceChunks_single (l : List Char) (s : Nat) (hs : 0 < s)
    (h0 : 0 < l.length) (hle : l.length ≤ s) : sliceChunks l s = [l] := by
  unfold sliceChunks
  have hcount : (l.length + s - 1) / s = 1 := by
    have h1 : l.length + s - 1 = (l.length - 1) + s := by omega
    rw [h1, Nat.add_div_right _ hs, Nat.div_eq_of_lt (by omega)]
  rw [hcount, List.range'_succ]
  simp [List.take_of_length_le hle]

theorem join_map_mk (ls : List (List Char)) :
    String.join (ls.map String.mk) = String.mk ls.flatten := by
  have key : ∀ (ls : List (List Char)) (acc : List Char),
      List.foldl (fun r t => r ++ t) (String.mk acc) (ls.map String.mk) =
        String.mk (acc ++ ls.flatten) := by
    intro ls
    induction ls with
    | nil => intro acc; simp
    | cons a t ih =>
      intro acc
      show List.foldl (fun r t => r ++ t) (String.mk acc ++ String.mk a) (t.map String.mk) = _
      rw [show String.mk acc ++ String.mk a = String.mk (acc ++ a) from rfl, ih]
      simp
  have h0 : String.join (ls.map String.mk) =
      List.foldl (fun r t => r ++ t) (String.mk []) (ls.map String.mk) := rfl
  rw [h0, key]
  rfl

theorem string_mk_data (c : String) : String.mk c.data = c := rfl

/-- Counterexample to claim C8 as stated: empty content has length at most
the threshold, yet `split_log` returns zero chunks, not the single chunk
`[""]` the claim's single-chunk clause demands — `range(0, 0, s)` is empty. -/
theorem C8_split_log_empty_counterexample :
    ("" : String).length ≤ 100000 ∧ split_log "" 100000 = [] ∧
      split_log "" 100000 ≠ [""] := by
  refine ⟨by decide, ?_, ?_⟩
  · have h : (("" : String).length + 100000 - 1) / 100000 = 0 := by decide
    unfold split_log
    rw [h]
    rfl
  · intro hcontra
    have h : (("" : String).length + 100000 - 1) / 100000 = 0 := by decide
    unfold split_log at hcontra
    rw [h] at hcontra
    exact absurd hcontra (by decide)

/-- Claim C8 amended: `split_log` is deterministic; nonempty content of
length at most the chunk size yields the single chunk equal to the whole
content (empty content yields zero chunks); the chunk count is
`ceil(length / chunk_size)` and the chunks concatenate back to the content;
and 500,000 characters with chunk size 200,000 yield exactly 3 chunks of
lengths 200,000, 200,000 and 100,000. -/
theorem C8_split_log_deterministic_ceiling_concat :
    (∀ (c₁ c₂ : String) (s₁ s₂ : Nat), c₁ = c₂ → s₁ = s₂ →
        split_log c₁ s₁ = split_log c₂ s₂) ∧
    (∀ (c : String) (s : Nat), 0 < s → 0 < c.length → c.length ≤ s →
        split_log c s = [c]) ∧
    (∀ (c : String) (s : Nat), (split_log c s).length = (c.length + s - 1) / s) ∧
    (∀ (c : String) (s : Nat), 0 < s → String.join (split_log c s) = c) ∧
    (split_log big_content 200000).map String.length = [200000, 200000, 100000] ∧
    (split_log big_content 200000).length = 3 := by
  have hdata : ∀ c : String, c.length = c.data.length := fun _ => rfl
  refine ⟨?_, ?_, ?_, ?_, ?_, ?_⟩
  · intro c₁ c₂ s₁ s₂ h₁ h₂
    rw [h₁, h₂]
  · intro c s hs h0 hle
    rw [split_log_eq_sliceChunks, sliceChunks_single c.data s hs h0 hle, List.map_cons,
      List.map_nil, string_mk_data]
  · intro c s
    simp [split_log]
  · intro c s hs
    rw [split_log_eq_sliceChunks, join_map_mk, sliceChunks_flatten c.data s hs,
      string_mk_data]
  · rw [split_log_eq_sliceChunks]
    have hlen : (big_content).data.length = 500000 := by
      show (List.replicate 500000 'a').length = 500000
      exact List.length_replicate 500000 'a'
    have hcount : ((big_content).data.length + 200000 - 1) / 200000 = 3 := by
      rw [hlen]
    unfold sliceChunks
    rw [hcount]
    have hrange : List.range' 0 3 200000 = [0, 200000, 400000] := rfl
    rw [hrange]
    simp only [List.map_cons, List.map_nil]
    show [(List.take 200000 (List.drop 0 big_content.data)).length,
        (List.take 200000 (List.drop 200000 big_content.data)).length,
        (List.take 200000 (List.drop 400000 big_content.data)).length] =
      [200000, 200000, 100000]
    rw [List.length_take, List.length_take, List.length_take,
      List.length_drop, List.length_drop, List.length_drop, hlen]
    norm_num
  · rw [split_log_eq_sliceChunks, List.length_map]
    unfold sliceChunks
    rw [List.length_map]
    have hlen : (big_content).data.length = 500000 := by
      show (List.replicate 500000 'a').length = 500000
      exact List.length_replicate 500000 'a'
    rw [hlen]
    simp

/-- Witness for C8 at concrete inputs: two-character content with chunk
size 5 is a single chunk, and three characters with chunk size 2
concatenate back to the content. -/
theorem C8_split_log_deterministic_ceiling_concat_witness :
    split_log "ab" 5 = ["ab"] ∧ String.join (split_log "abc" 2) = "abc" :=
  ⟨C8_split_log_deterministic_ceiling_concat.2.1 "ab" 5 (by decide) (by decide) (by decide),
   C8_split_log_deterministic_ceiling_concat.2.2.2.1 "abc" 2 (by decide)⟩

/-- The typed SSE events emitted by the streaming endpoint, one constructor
per `type` discriminator value appearing in the `generate` function. -/
inductive Ev where
  | start (analysis_id : String)
  | content (text : String)
  | progress (percentage current_chunk total_chunks input_tokens output_tokens : Nat)
  | complete
  | cancelled
  | error (message : String)
deriving DecidableEq

/-- Terminal events: `complete`, `cancelled` and `error`. -/
def Ev.isTerminal : Ev → Bool
  | .complete => true
  | .cancelled => true
  | .error _ => true
  | _ => false

def Ev.isStart : Ev → Bool
  | .start _ => true
  | _ => false

def Ev.isContent : Ev → Bool
  | .content _ => true
  | _ => false

def Ev.isError : Ev → Bool
  | .error _ => true
  | _ => false

/-- One successful iteration of the engine's async generator, as observed
by `generate`: the text chunk it yielded, together with the `api_usage`
entry of `engine.get_status()` right after it (absent when the status
carries no `api_usage` key, in which case no progress event is sent). -/
structure ChunkStep where
  text : String
  api_usage : Option (Nat × Nat)
deriving DecidableEq

/-- How the engine's async generator ends after its successful iterations:
normal exhaustion (`StopAsyncIteration`), `CancellationException`, or any
other exception with its message. -/
inductive EngineEnd where
  | done
  | cancelled
  | failed (message : String)
deriving DecidableEq

/-- The final SSE event produced by `generate` for each way the engine
ends: `complete` after the loop, `cancelled` from the
`except CancellationException` handler, `error` from `except Exception`. -/
def endEvent : EngineEnd → Ev
  | .done => .complete
  | .cancelled => .cancelled
  | .failed m => .error m

/-- The `while True` loop of `generate`: per chunk, yield a `content`
event, increment `chunk_count`, and — when the engine status has
`api_usage` — yield a `progress` event with
`progress_percentage = min(chunk_count * 10, 90)`,
`current_chunk = chunk_count` and the never-updated `total_chunks = 1`;
then the event for how the engine ended. -/
def loopEvents : List ChunkStep → Nat → EngineEnd → List Ev
  | [], _, e => [endEvent e]
  | st :: rest, chunk_count, e =>
      Ev.content st.text ::
        ((match st.api_usage with
          | some (it, ot) =>
              [Ev.progress (min ((chunk_count + 1) * 10) 90) (chunk_count + 1) 1 it ot]
          | none => []) ++ loopEvents rest (chunk_count + 1) e)

/-- The event sequence of the SSE generator `generate`: a `start` event is
yielded first; then, if `ANALYSIS_ENGINE` is configured, the engine loop
runs; if it is not configured, the code executes
`return analyze_with_cancellation_mock_impl(...)` inside the generator,
which ends the generator at once — the returned mock `Response` is
discarded and nothing further is yielded. -/
def generate (analysis_id : String) (engineConfigured : Bool) (steps : List ChunkStep)
    (ending : EngineEnd) : List Ev :=
  Ev.start analysis_id ::
    (if engineConfigured then loopEvents steps 0 ending else [])

/-- The content/progress part of the loop, without the final event. -/
def bodyEvents : List ChunkStep → Nat → List Ev
  | [], _ => []
  | st :: rest, chunk_count =>
      Ev.content st.text ::
        ((match st.api_usage with
          | some (it, ot) =>
              [Ev.progress (min ((chunk_count + 1) * 10) 90) (chunk_count + 1) 1 it ot]
          | none => []) ++ bodyEvents rest (chunk_count + 1))

theorem loopEvents_eq_body :
    ∀ (steps : List ChunkStep) (k : Nat) (e : EngineEnd),
      loopEvents steps k e = bodyEvents steps k ++ [endEvent e] := by
  intro steps
  induction steps with
  | nil => intro k e; rfl
  | cons st rest ih =>
    intro k e
    simp only [loopEvents, bodyEvents, ih (k + 1) e, List.cons_append, List.append_assoc]

theorem bodyEvents_mem (steps : List ChunkStep) :
    ∀ (k : Nat) (ev : Ev), ev ∈ bodyEvents steps k →
      ev.isTerminal = false ∧ ev.isStart = false ∧ ev.isError = false := by
  induction steps with
  | nil => intro k ev h; simp [bodyEvents] at h
  | cons st rest ih =>
    intro k ev h
    rcases st with ⟨text, usage⟩
    cases usage with
    | none =>
      simp only [bodyEvents, List.nil_append, List.mem_cons] at h
      rcases h with h | h
      · subst h; exact ⟨rfl, rfl, rfl⟩
      · exact ih (k + 1) ev h
    | some u =>
      rcases u with ⟨it, ot⟩
      simp only [bodyEvents, List.cons_append, List.nil_append, List.mem_cons] at h
      rcases h with h | h | h
      · subst h; exact ⟨rfl, rfl, rfl⟩
      · subst h; exact ⟨rfl, rfl, rfl⟩
      · exact ih (k + 1) ev h

theorem bodyEvents_countP_zero (steps : List ChunkStep) (k : Nat) (p : Ev → Bool)
    (hp : ∀ ev ∈ bodyEvents steps k, p ev = false) :
    (bodyEvents steps k).countP p = 0 := by
  rw [List.countP_eq_zero]
  intro a ha
  simp [hp a ha]

theorem endEvent_isTerminal (e : EngineEnd) : (endEvent e).isTerminal = true := by
  cases e <;> rfl

theorem endEvent_not_start (e : EngineEnd) : (endEvent e).isStart = false := by
  cases e <;> rfl

/-- Claim C1: with a configured engine, the event sequence opens with the
single `start` event and closes with the single terminal event; but on the
engine-not-configured fallback path the generator ends right after `start`
— the mock response is discarded and no terminal event is ever emitted. -/
theorem C1_generate_start_terminal :
    (∀ (id : String) (steps : List ChunkStep) (e : EngineEnd),
        (generate id true steps e).head? = some (Ev.start id) ∧
        (generate id true steps e).countP Ev.isStart = 1 ∧
        (generate id true steps e).countP Ev.isTerminal = 1 ∧
        ((generate id true steps e).getLast?.map Ev.isTerminal) = some true) ∧
    (∀ (id : String) (steps : List ChunkStep) (e : EngineEnd),
        generate id false steps e = [Ev.start id] ∧
        (generate id false steps e).countP Ev.isTerminal = 0) := by
  constructor
  · intro id steps e
    have hgen : generate id true steps e =
        Ev.start id :: (bodyEvents steps 0 ++ [endEvent e]) := by
      simp [generate, loopEvents_eq_body]
    have hterm0 : (bodyEvents steps 0).countP Ev.isTerminal = 0 :=
      bodyEvents_countP_zero steps 0 Ev.isTerminal
        (fun ev hev => (bodyEvents_mem steps 0 ev hev).1)
    have hstart0 : (bodyEvents steps 0).countP Ev.isStart = 0 :=
      bodyEvents_countP_zero steps 0 Ev.isStart
        (fun ev hev => (bodyEvents_mem steps 0 ev hev).2.1)
    refine ⟨by rw [hgen]; rfl, ?_, ?_, ?_⟩
    · rw [hgen]
      rw [List.countP_cons, List.countP_append, hstart0, List.countP_cons, List.countP_nil]
      cases e <;> simp [Ev.isStart, endEvent]
    · rw [hgen]
      rw [List.countP_cons, List.countP_append, hterm0, List.countP_cons, List.countP_nil]
      cases e <;> simp [Ev.isTerminal, endEvent]
    · rw [hgen, show Ev.start id :: (bodyEvents steps 0 ++ [endEvent e]) =
          (Ev.start id :: bodyEvents steps 0) ++ [endEvent e] from rfl,
        List.getLast?_concat]
      simp [endEvent_isTerminal e]
  · intro id steps e
    exact ⟨rfl, rfl⟩

/-- Claim C6: when the engine loop ends with `CancellationException`, the
event sequence ends with a `cancelled` event — the single terminal event —
and contains no `error` event at all; no further events follow it. -/
theorem C6_cancellation_ends_with_cancelled (id : String) (steps : List ChunkStep) :
    (generate id true steps EngineEnd.cancelled).getLast? = some Ev.cancelled ∧
    (generate id true steps EngineEnd.cancelled).countP Ev.isTerminal = 1 ∧
    (generate id true steps EngineEnd.cancelled).countP Ev.isError = 0 := by
  have hgen : generate id true steps EngineEnd.cancelled =
      Ev.start id :: (bodyEvents steps 0 ++ [Ev.cancelled]) := by
    simp [generate, loopEvents_eq_body, endEvent]
  have hterm0 : (bodyEvents steps 0).countP Ev.isTerminal = 0 :=
    bodyEvents_countP_zero steps 0 Ev.isTerminal
      (fun ev hev => (bodyEvents_mem steps 0 ev hev).1)
  have herr0 : (bodyEvents steps 0).countP Ev.isError = 0 :=
    bodyEvents_countP_zero steps 0 Ev.isError
      (fun ev hev => (bodyEvents_mem steps 0 ev hev).2.2)
  refine ⟨?_, ?_, ?_⟩
  · rw [hgen, show Ev.start id :: (bodyEvents steps 0 ++ [Ev.cancelled]) =
        (Ev.start id :: bodyEvents steps 0) ++ [Ev.cancelled] from rfl,
      List.getLast?_concat]
  · rw [hgen, List.countP_cons, List.countP_append, hterm0, List.countP_cons, List.countP_nil]
    simp [Ev.isTerminal]
  · rw [hgen, List.countP_cons, List.countP_append, herr0, List.countP_cons, List.countP_nil]
    simp [Ev.isError]

/-- The synchronous HTTP error body returned before the SSE stream opens. -/
structure ErrorResponse where
  status : Nat
  message : String
deriving DecidableEq

/-- The route handler `analyze_with_cancellation`: empty content is
rejected with a synchronous 400 JSON response before the mock-mode check
and before the SSE generator (and hence any event) exists; otherwise the
response streams either the mock implementation's events or `generate`'s. -/
def analyze_with_cancellation (content : String) (use_mock : Bool) (mockEvents : List Ev)
    (analysis_id : String) (engineConfigured : Bool) (steps : List ChunkStep)
    (ending : EngineEnd) : Except ErrorResponse (List Ev) :=
  if content.isEmpty then Except.error ⟨400, "Content is required"⟩
  else if use_mock then Except.ok mockEvents
  else Except.ok (generate analysis_id engineConfigured steps ending)

/-- Claim C7: an empty-content request is rejected synchronously with the
400 error response — no event sequence (in particular no `start` event) is
ever produced, whatever the mock/engine configuration. -/
theorem C7_empty_content_rejected (content : String) (use_mock : Bool) (mockEvents : List Ev)
    (analysis_id : String) (engineConfigured : Bool) (steps : List ChunkStep)
    (ending : EngineEnd) (h : content = "") :
    analyze_with_cancellation content use_mock mockEvents analysis_id engineConfigured
        steps ending = Except.error ⟨400, "Content is required"⟩ ∧
    ∀ evs : List Ev, analyze_with_cancellation content use_mock mockEvents analysis_id
        engineConfigured steps ending ≠ Except.ok evs := by
  have h0 : content.isEmpty = true := by rw [h]; decide
  constructor
  · simp [analyze_with_cancellation, h0]
  · intro evs hcontra
    simp [analyze_with_cancellation, h0] at hcontra

/-- Witness for C7 at a concrete empty-content request. -/
theorem C7_empty_content_rejected_witness :
    analyze_with_cancellation "" false [] "a" true [] EngineEnd.done =
        Except.error ⟨400, "Content is required"⟩ ∧
    ∀ evs : List Ev, analyze_with_cancellation "" false [] "a" true [] EngineEnd.done ≠
        Except.ok evs :=
  C7_empty_content_rejected "" false [] "a" true [] EngineEnd.done rfl

theorem loopEvents_progress_char :
    ∀ (steps : List ChunkStep) (k : Nat) (e : EngineEnd) (i p cc tc it ot : Nat),
      (loopEvents steps k e).get? i = some (Ev.progress p cc tc it ot) →
      tc = 1 ∧ cc = k + ((loopEvents steps k e).take i).countP Ev.isContent ∧
        p = min (cc * 10) 90 := by
  intro steps
  induction steps with
  | nil =>
    intro k e i p cc tc it ot h
    cases e <;> cases i <;> simp [loopEvents, endEvent] at h
  | cons st rest ih =>
    intro k e i p cc tc it ot h
    rcases st with ⟨text, usage⟩
    cases usage with
    | none =>
      simp only [loopEvents, List.nil_append] at h ⊢
      cases i with
      | zero => simp at h
      | succ i' =>
        have h' : (loopEvents rest (k + 1) e).get? i' = some (Ev.progress p cc tc it ot) := h
        obtain ⟨htc, hcc, hp⟩ := ih (k + 1) e i' p cc tc it ot h'
        refine ⟨htc, ?_, hp⟩
        rw [List.take_succ_cons, List.countP_cons]
        have hred : Ev.isContent (Ev.content text) = true := rfl
        simp only [hred, if_pos]
        omega
    | some u =>
      rcases u with ⟨it₀, ot₀⟩
      simp only [loopEvents, List.cons_append, List.nil_append] at h ⊢
      cases i with
      | zero => simp at h
      | succ i' =>
        cases i' with
        | zero =>
          have h2 : Ev.progress (min ((k + 1) * 10) 90) (k + 1) 1 it₀ ot₀ =
              Ev.progress p cc tc it ot := Option.some.inj h
          injection h2 with hp hcc htc hit hot
          refine ⟨htc.symm, ?_, ?_⟩
          · rw [← hcc, List.take_succ_cons, List.take_zero, List.countP_cons, List.countP_nil]
            have hred : Ev.isContent (Ev.content text) = true := rfl
            simp [hred]
          · rw [← hp, ← hcc]
        | succ i'' =>
          have h' : (loopEvents rest (k + 1) e).get? i'' =
              some (Ev.progress p cc tc it ot) := h
          obtain ⟨htc, hcc, hp⟩ := ih (k + 1) e i'' p cc tc it ot h'
          refine ⟨htc, ?_, hp⟩
          rw [List.take_succ_cons, List.take_succ_cons, List.countP_cons, List.countP_cons]
          have hred : Ev.isContent (Ev.content text) = true := rfl
          have hred2 : Ev.isContent
              (Ev.progress (min ((k + 1) * 10) 90) (k + 1) 1 it₀ ot₀) = false := rfl
          simp [hred, hred2]
          omega

theorem countP_take_mono (pr : Ev → Bool) (l : List Ev) :
    ∀ i j, i ≤ j → ((l.take i).countP pr) ≤ ((l.take j).countP pr) := by
  induction l with
  | nil => intro i j h; simp
  | cons a t ih =>
    intro i j h
    cases i with
    | zero => simp
    | succ i' =>
      cases j with
      | zero => omega
      | succ j' =>
        simp only [List.take_succ_cons, List.countP_cons]
        have := ih i' j' (by omega)
        omega

/-- Claim C10: every `progress` event of the stream carries
`total_chunks = 1` and `progress_percentage = min(10 * contents-so-far, 90)`
where contents-so-far counts the `content` events preceding it (equal to
its own `current_chunk` field); hence percentages are at most 90 and
non-decreasing along one analysis. -/
theorem C10_progress_fields (id : String) (steps : List ChunkStep) (e : EngineEnd) :
    (∀ (i p cc tc it ot : Nat),
        (generate id true steps e).get? i = some (Ev.progress p cc tc it ot) →
        tc = 1 ∧ cc = ((generate id true steps e).take i).countP Ev.isContent ∧
          p = min (cc * 10) 90 ∧ p ≤ 90) ∧
    (∀ (i j p cc tc it ot q dc uc jt jo : Nat), i ≤ j →
        (generate id true steps e).get? i = some (Ev.progress p cc tc it ot) →
        (generate id true steps e).get? j = some (Ev.progress q dc uc jt jo) →
        p ≤ q) := by
  have hgen : generate id true steps e = Ev.start id :: loopEvents steps 0 e := by
    simp [generate]
  have main : ∀ (i p cc tc it ot : Nat),
      (generate id true steps e).get? i = some (Ev.progress p cc tc it ot) →
      tc = 1 ∧ cc = ((generate id true steps e).take i).countP Ev.isContent ∧
        p = min (cc * 10) 90 := by
    intro i p cc tc it ot h
    rw [hgen] at h
    cases i with
    | zero => simp at h
    | succ i' =>
      have h' : (loopEvents steps 0 e).get? i' = some (Ev.progress p cc tc it ot) := h
      obtain ⟨htc, hcc, hp⟩ := loopEvents_progress_char steps 0 e i' p cc tc it ot h'
      refine ⟨htc, ?_, hp⟩
      rw [hgen, List.take_succ_cons, List.countP_cons]
      have hred : Ev.isContent (Ev.start id) = false := rfl
      simp [hred]
      omega
  constructor
  · intro i p cc tc it ot h
    obtain ⟨htc, hcc, hp⟩ := main i p cc tc it ot h
    exact ⟨htc, hcc, hp, by rw [hp]; exact Nat.min_le_right _ _⟩
  · intro i j p cc tc it ot q dc uc jt jo hij hi hj
    obtain ⟨_, hcci, hpi⟩ := main i p cc tc it ot hi
    obtain ⟨_, hccj, hpj⟩ := main j q dc uc jt jo hj
    rw [hpi, hpj, hcci, hccj]
    have hmono := countP_take_mono Ev.isContent (generate id true steps e) i j hij
    exact min_le_min (Nat.mul_le_mul_right 10 hmono) le_rfl

/-- Witness for C10 on a one-chunk stream with usage data: the progress
event at position 2 has `total_chunks = 1`, `current_chunk = 1` equal to
the count of preceding content events, and percentage `10 ≤ 90`. -/
theorem C10_progress_fields_witness :
    1 = 1 ∧
    1 = ((generate "a" true [ChunkStep.mk "x" (some (3, 4))] EngineEnd.done).take 2).countP
        Ev.isContent ∧
    10 = min (1 * 10) 90 ∧ 10 ≤ 90 :=
  (C10_progress_fields "a" [ChunkStep.mk "x" (some (3, 4))] EngineEnd.done).1
    2 10 1 1 3 4 (by decide)

/-- The mutable state of `StreamingAnalyzer.__init__`: the tunable
`check_interval = 100` and the running counter `chars_since_check = 0`. -/
structure StreamingAnalyzer where
  check_interval : Nat
  chars_since_check : Nat
deriving DecidableEq

/-- Constructor `StreamingAnalyzer()`. -/
def StreamingAnalyzer.new : StreamingAnalyzer :=
  { check_interval := 100, chars_since_check := 0 }

/-- Translation of the `async for` loop of
`StreamingAnalyzer.stream_with_cancellation`, driven by the lengths of the
fragments the provider stream yields: add the fragment length to
`chars_since_check`; when the counter has reached `check_interval`, await
`check_cancelled` and reset the counter to zero.  Each list entry records
whether that fragment triggered a check, and the counter value after it. -/
def stream_trace : Nat → Nat → List Nat → List (Bool × Nat)
  | _, _, [] => []
  | interval, acc, len :: rest =>
      if interval ≤ acc + len then (true, 0) :: stream_trace interval 0 rest
      else (false, acc + len) :: stream_trace interval (acc + len) rest

/-- The counter value in force when fragment `i` is about to be processed:
the initial counter for the first fragment, afterwards the counter left by
the preceding fragment. -/
def counterBefore (acc : Nat) (t : List (Bool × Nat)) : Nat → Nat
  | 0 => acc
  | i + 1 => (((t.get? i).map Prod.snd).getD 0)

/-- Number of cancellation checks performed along a trace. -/
def countChecks (t : List (Bool × Nat)) : Nat :=
  t.countP (fun s => s.1)

theorem counterBefore_cons (acc : Nat) (hd : Bool × Nat) (t : List (Bool × Nat)) (i : Nat) :
    counterBefore acc (hd :: t) (i + 1) = counterBefore hd.2 t i := by
  cases i with
  | zero => rfl
  | succ j => rfl

theorem stream_trace_bounded (interval : Nat) (hpos : 0 < interval) :
    ∀ (lens : List Nat) (acc i : Nat) (b : Bool) (c : Nat),
      (stream_trace interval acc lens).get? i = some (b, c) → c < interval := by
  intro lens
  induction lens with
  | nil => intro acc i b c h; simp [stream_trace] at h
  | cons len rest ih =>
    intro acc i b c h
    by_cases hif : interval ≤ acc + len
    · rw [stream_trace, if_pos hif] at h
      cases i with
      | zero =>
        have h2 : ((true, 0) : Bool × Nat) = (b, c) := Option.some.inj h
        injection h2 with hb hc
        omega
      | succ i' => exact ih 0 i' b c h
    · rw [stream_trace, if_neg hif] at h
      cases i with
      | zero =>
        have h2 : ((false, acc + len) : Bool × Nat) = (b, c) := Option.some.inj h
        injection h2 with hb hc
        omega
      | succ i' => exact ih (acc + len) i' b c h

theorem stream_trace_exact (interval : Nat) :
    ∀ (lens : List Nat) (acc i len : Nat) (b : Bool) (c : Nat),
      lens.get? i = some len →
      (stream_trace interval acc lens).get? i = some (b, c) →
      ((b = true ↔ interval ≤ counterBefore acc (stream_trace interval acc lens) i + len) ∧
       (b = true → c = 0) ∧
       (b = false → c = counterBefore acc (stream_trace interval acc lens) i + len)) := by
  intro lens
  induction lens with
  | nil => intro acc i len b c hl h; simp [stream_trace] at h
  | cons l rest ih =>
    intro acc i len b c hl h
    by_cases hif : interval ≤ acc + l
    · rw [stream_trace, if_pos hif] at h ⊢
      cases i with
      | zero =>
        have hlen : l = len := Option.some.inj hl
        have h2 : ((true, 0) : Bool × Nat) = (b, c) := Option.some.inj h
        injection h2 with hb hc
        subst hlen
        refine ⟨⟨fun _ => hif, fun _ => hb.symm⟩, fun _ => hc.symm, fun hfalse => ?_⟩
        rw [← hb] at hfalse
        exact absurd hfalse (by simp)
      | succ i' =>
        have hl' : rest.get? i' = some len := hl
        obtain ⟨h1, h2, h3⟩ := ih 0 i' len b c hl' h
        rw [counterBefore_cons]
        exact ⟨h1, h2, h3⟩
    · rw [stream_trace, if_neg hif] at h ⊢
      cases i with
      | zero =>
        have hlen : l = len := Option.some.inj hl
        have h2 : ((false, acc + l) : Bool × Nat) = (b, c) := Option.some.inj h
        injection h2 with hb hc
        subst hlen
        refine ⟨⟨fun htrue => ?_, fun hle => absurd hle hif⟩, fun htrue => ?_, fun _ => hc.symm⟩
        · rw [← hb] at htrue; exact absurd htrue (by simp)
        · rw [← hb] at htrue; exact absurd htrue (by simp)
      | succ i' =>
        have hl' : rest.get? i' = some len := hl
        obtain ⟨h1, h2, h3⟩ := ih (acc + l) i' len b c hl' h
        rw [counterBefore_cons]
        exact ⟨h1, h2, h3⟩

theorem stream_trace_rate (interval : Nat) :
    ∀ (lens : List Nat) (acc : Nat),
      interval * countChecks (stream_trace interval acc lens) ≤ acc + lens.sum := by
  intro lens
  induction lens with
  | nil => intro acc; simp [stream_trace, countChecks]
  | cons l rest ih =>
    intro acc
    by_cases hif : interval ≤ acc + l
    · rw [stream_trace, if_pos hif]
      have hcount : countChecks ((true, 0) :: stream_trace interval 0 rest) =
          countChecks (stream_trace interval 0 rest) + 1 := by
        simp [countChecks, List.countP_cons]
      rw [hcount, Nat.mul_add, Nat.mul_one]
      have := ih 0
      simp only [Nat.zero_add] at this
      have hsum : (l :: rest).sum = l + rest.sum := by simp
      omega
    · rw [stream_trace, if_neg hif]
      have hcount : countChecks ((false, acc + l) :: stream_trace interval (acc + l) rest) =
          countChecks (stream_trace interval (acc + l) rest) := by
        simp [countChecks, List.countP_cons]
      rw [hcount]
      have := ih (acc + l)
      have hsum : (l :: rest).sum = l + rest.sum := by simp
      omega

/-- Claim C9: starting from the constructor state (`check_interval = 100`,
counter `0`), a cancellation check fires on a fragment exactly when the
characters accumulated since the previous check reach the interval; the
counter is reset to zero by a check and accumulates otherwise, staying
below the interval after every fragment; consequently at least `interval`
generated characters separate consecutive checks
(`interval * checks ≤ total characters`), not one check per fragment. -/
theorem C9_stream_check_interval (interval : Nat) (lens : List Nat) (hpos : 0 < interval) :
    (StreamingAnalyzer.new.check_interval = 100 ∧
      StreamingAnalyzer.new.chars_since_check = 0) ∧
    (∀ (i len : Nat) (b : Bool) (c : Nat),
        lens.get? i = some len →
        (stream_trace interval 0 lens).get? i = some (b, c) →
        ((b = true ↔ interval ≤ counterBefore 0 (stream_trace interval 0 lens) i + len) ∧
         (b = true → c = 0) ∧
         (b = false → c = counterBefore 0 (stream_trace interval 0 lens) i + len))) ∧
    (∀ (i : Nat) (b : Bool) (c : Nat),
        (stream_trace interval 0 lens).get? i = some (b, c) → c < interval) ∧
    interval * countChecks (stream_trace interval 0 lens) ≤ lens.sum := by
  refine ⟨⟨rfl, rfl⟩, ?_, ?_, ?_⟩
  · intro i len b c hl h
    exact stream_trace_exact interval lens 0 i len b c hl h
  · intro i b c h
    exact stream_trace_bounded interval hpos lens 0 i b c h
  · have := stream_trace_rate interval lens 0
    simpa using this

/-- Witness for C9 with interval 100 on fragments of 60, 50 and 30
characters: the second fragment (index 1) triggers the check — the counter
60 plus 50 reaches 100 — and resets the counter; three fragments cause one
check, within the rate bound. -/
theorem C9_stream_check_interval_witness :
    ((true = true ↔ 100 ≤ counterBefore 0 (stream_trace 100 0 [60, 50, 30]) 1 + 50) ∧
     (true = true → (0 : Nat) = 0) ∧
     (true = false → (0 : Nat) = counterBefore 0 (stream_trace 100 0 [60, 50, 30]) 1 + 50)) ∧
    100 * countChecks (stream_trace 100 0 [60, 50, 30]) ≤ [60, 50, 30].sum :=
  ⟨(C9_stream_check_interval 100 [60, 50, 30] (by decide)).2.1 1 50 true 0
      (by decide) (by decide),
   (C9_stream_check_interval 100 [60, 50, 30] (by decide)).2.2.2⟩

/-- Modelled from the spec: `remove(analysisId)` of the cancellation
registry.  The coordinator that performs terminal-path cleanup lives in
`src.core.engine`, which is not among the sources (the endpoint only
imports it); per the spec, removal is idempotent and deletes the entry if
present. -/
def CancellationManager.removeToken (m : CancellationManager) (id : String) :
    CancellationManager :=
  ⟨m.tokens.filter (fun p => !(p.1 == id))⟩

/-- The out-of-band status values of the `QueryStatus` interface. -/
inductive AnalysisStatus where
  | Running
  | Completed
  | Cancelled
  | Failed
  | NotFound
deriving DecidableEq

/-- Modelled from the spec: `QueryStatus` reports `Running` exactly for the
ids holding an active token in the registry.  Historical statuses of
finished analyses live in the excluded persistence layer, so ids absent
from the registry collapse to `NotFound` here; only the
`Running`/not-`Running` distinction is used below. -/
def query_status (m : CancellationManager) (id : String) : AnalysisStatus :=
  match m.getToken id with
  | some _ => AnalysisStatus.Running
  | none => AnalysisStatus.NotFound

/-- Modelled from the spec: the coordinator's terminal step — the single
unconditional cleanup reached from every terminal path (completion,
failure, or cancellation): emit the terminal event for the outcome and
remove the analysis id's token from the registry. -/
def coordinator_finish (m : CancellationManager) (id : String) (e : EngineEnd) :
    Ev × CancellationManager :=
  (endEvent e, m.removeToken id)

theorem getToken_removeToken_self (m : CancellationManager) (id : String) :
    (m.removeToken id).getToken id = none := by
  show (m.tokens.filter (fun p => !(p.1 == id))).lookup id = none
  induction m.tokens with
  | nil => rfl
  | cons p rest ih =>
    rcases p with ⟨k, v⟩
    by_cases hk : k = id
    · subst hk
      simp only [List.filter_cons]
      have hcond : (!((k, v).1 == k)) = false := by simp
      rw [hcond]
      exact ih
    · simp only [List.filter_cons]
      have hcond : (!((k, v).1 == id)) = true := by simp [hk]
      rw [hcond]
      simp only [if_pos]
      have h2 : (id == k) = false := beq_eq_false_iff_ne.mpr (fun he => hk he.symm)
      simp [List.lookup, h2, ih]

/-- Claim C4: on every terminal path (completion, failure, cancellation)
the coordinator's cleanup step removes the analysis id's token, so right
after the terminal event the id is absent from the registry and a status
query does not report `Running` for it. -/
theorem C4_terminal_removes_token (m : CancellationManager) (id : String) (e : EngineEnd) :
    (coordinator_finish m id e).1.isTerminal = true ∧
    (coordinator_finish m id e).2.getToken id = none ∧
    query_status (coordinator_finish m id e).2 id ≠ AnalysisStatus.Running := by
  refine ⟨endEvent_isTerminal e, getToken_removeToken_self m id, ?_⟩
  intro hcontra
  unfold query_status at hcontra
  rw [show (coordinator_finish m id e).2 = m.removeToken id from rfl,
    getToken_removeToken_self m id] at hcontra
  exact absurd hcontra (by simp)

/-- Witness for C4 at a concrete registry holding the analysis's token,
across each of the three terminal outcomes. -/
theorem C4_terminal_removes_token_witness :
    ((coordinator_finish (CancellationManager.mk [("a", CancellationToken.new "a" 0)])
        "a" EngineEnd.done).1.isTerminal = true ∧
     (coordinator_finish (CancellationManager.mk [("a", CancellationToken.new "a" 0)])
        "a" EngineEnd.done).2.getToken "a" = none ∧
     query_status (coordinator_finish (CancellationManager.mk
        [("a", CancellationToken.new "a" 0)]) "a" EngineEnd.done).2 "a" ≠
       AnalysisStatus.Running) ∧
    (coordinator_finish (CancellationManager.mk [("a", CancellationToken.new "a" 0)])
        "a" EngineEnd.cancelled).2.getToken "a" = none ∧
    (coordinator_finish (CancellationManager.mk [("a", CancellationToken.new "a" 0)])
        "a" (EngineEnd.failed "boom")).2.getToken "a" = none :=
  ⟨C4_terminal_removes_token (CancellationManager.mk [("a", CancellationToken.new "a" 0)])
      "a" EngineEnd.done,
   (C4_terminal_removes_token (CancellationManager.mk [("a", CancellationToken.new "a" 0)])
      "a" EngineEnd.cancelled).2.1,
   (C4_terminal_removes_token (CancellationManager.mk [("a", CancellationToken.new "a" 0)])
      "a" (EngineEnd.failed "boom")).2.1⟩
